import Mathlib

/-!
Verification development for the pmix_analysis repository.

The repository has two pipelines:
* `merge_menu_data.py` — enriches a transaction-level menu-mix extract with
  name/classification data from a master item catalog (left join on a
  normalized `ItemID` key);
* `pmix_dashboard.py` — loads the enriched data, derives calendar/season
  features, filters, aggregates and ranks for presentation.

Every definition below is a shallow embedding of the corresponding Python
function; machine floats are modelled as integers (`Int`; the claims verified here concern null-propagation and ordering, which do not depend on fractional values) and nullable cells as
`Option`.
-/

namespace PmixAnalysis

/-! ## Calendar model (pmix_dashboard.py) -/

/-- A calendar date as carried by a pandas `Timestamp`: year, month, day. -/
structure Date where
  year : Int
  month : Nat
  day : Nat
deriving DecidableEq

/-- Comparison of two dates, as pandas `Timestamp` ordering on valid dates
(lexicographic on year, month, day). Embeds the `d >= start` / `d <= end`
comparisons in `ski_season_label`. -/
def dateLe (a b : Date) : Bool :=
  decide (a.year < b.year) ||
    (decide (a.year = b.year) &&
      (decide (a.month < b.month) ||
        (decide (a.month = b.month) && decide (a.day ≤ b.day))))

/-- Gregorian leap-year rule, as used by pandas timestamps. -/
def isLeap (y : Int) : Bool :=
  (y % 4 == 0 && y % 100 != 0) || (y % 400 == 0)

/-- Number of days in a month. -/
def daysInMonth (y : Int) (m : Nat) : Nat :=
  if m = 2 then (if isLeap y then 29 else 28)
  else if m = 4 ∨ m = 6 ∨ m = 9 ∨ m = 11 then 30
  else 31

/-- A date is parseable (a real calendar date). `pd.to_datetime` with
`errors="coerce"` only lets such dates through. -/
def validDate (d : Date) : Bool :=
  decide (1 ≤ d.month) && decide (d.month ≤ 12) &&
    decide (1 ≤ d.day) && decide (d.day ≤ daysInMonth d.year d.month)

/-- The season label string built by `ski_season_label`:
the Python f-string `f"{start_year}-{start_year+1}"`. -/
def seasonStr (y : Int) : String :=
  toString y ++ "-" ++ toString (y + 1)

/-- The final interval check of `ski_season_label` (pmix_dashboard.py:42-44):
build Nov 10 of the candidate start year and Apr 20 of the following year,
and return the label only when the date lies inside the closed interval. -/
def seasonCheck (sy : Int) (d : Date) : Option String :=
  let start : Date := { year := sy, month := 11, day := 10 }
  let stop : Date := { year := sy + 1, month := 4, day := 20 }
  if dateLe start d && dateLe d stop then some (seasonStr sy) else none

/-- `ski_season_label` (pmix_dashboard.py:34-44): pick the candidate season
start year from the month/day branches, then verify the closed interval
[Nov 10 start_year, Apr 20 start_year+1]. -/
def ski_season_label (d : Date) : Option String :=
  let m := d.month
  let day := d.day
  let y := d.year
  if decide (m > 11) || (decide (m = 11) && decide (day ≥ 10)) || decide (m = 12) then
    seasonCheck y d
  else if decide (m < 4) || (decide (m = 4) && decide (day ≤ 20)) then
    seasonCheck (y - 1) d
  else
    none

example : ski_season_label { year := 2024, month := 11, day := 9 } = none := by decide
example : ski_season_label { year := 2024, month := 11, day := 10 } = some "2024-2025" := by decide
example : ski_season_label { year := 2025, month := 4, day := 20 } = some "2024-2025" := by decide
example : ski_season_label { year := 2025, month := 4, day := 21 } = none := by decide
example : ski_season_label { year := 2025, month := 1, day := 15 } = some "2024-2025" := by decide
example : ski_season_label { year := 2025, month := 7, day := 1 } = none := by decide

/-! ## Enrichment pipeline model (merge_menu_data.py) -/

/-- Python `str.strip()` (and pandas `.str.strip()`): drop leading and
trailing whitespace. Implemented over the character list so that it
evaluates by kernel reduction. -/
def pyStrip (s : String) : String :=
  String.mk
    (((s.toList.dropWhile Char.isWhitespace).reverse.dropWhile Char.isWhitespace).reverse)

example : pyStrip "  a b " = "a b" := by decide

/-- A transaction (menu-mix) row, read with `dtype=str`: the identifier and
the display name (a cell may be empty, hence `Option`). Other pass-through
columns do not affect any claim. -/
structure MixRow where
  itemID : String
  itemName : Option String
deriving DecidableEq

/-- A raw master-catalog row as read from the spreadsheet (columns A, C, D,
J, L with `dtype=str`): every cell may be blank. -/
structure MasterRaw where
  itemID : Option String
  itemName : Option String
  productClass : Option String
  revenueCategory : Option String
  itemGroup : Option String
deriving DecidableEq

/-- A cleaned master entry: identifier present and trimmed. -/
structure MasterEntry where
  itemID : String
  itemName : Option String
  productClass : Option String
  revenueCategory : Option String
  itemGroup : Option String
deriving DecidableEq

/-- An enriched output row (a row of `df_out`). -/
structure OutRow where
  itemID : String
  itemName : Option String
  productClass : Option String
  revenueCategory : Option String
  itemGroup : Option String
deriving DecidableEq

/-- `df_master["Product Class"].ffill()` (merge_menu_data.py:57): carry the
last non-blank Product Class value downward. -/
def ffillPC (last : Option String) : List MasterRaw → List MasterRaw
  | [] => []
  | r :: rs =>
    let pc := match r.productClass with
      | some v => some v
      | none => last
    { r with productClass := pc } :: ffillPC pc rs

/-- Master-catalog cleanup (merge_menu_data.py:55-65): forward-fill Product
Class, drop rows lacking an identifier, trim the identifier. -/
def cleanMaster (raw : List MasterRaw) : List MasterEntry :=
  (ffillPC none raw).filterMap fun r =>
    r.itemID.map fun id =>
      { itemID := pyStrip id
        itemName := r.itemName
        productClass := r.productClass
        revenueCategory := r.revenueCategory
        itemGroup := r.itemGroup }

/-- Transaction-side key cleanup (merge_menu_data.py:31):
`df_mix["ItemID"].astype(str).str.strip()`. -/
def cleanMix (mix : List MixRow) : List MixRow :=
  mix.map fun r => { r with itemID := pyStrip r.itemID }

/-- The master rows matching a given identifier (the join partner set). -/
def matchesFor (master : List MasterEntry) (id : String) : List MasterEntry :=
  master.filter fun e => e.itemID == id

/-- `df_mix.merge(df_master, on="ItemID", how="left")`
(merge_menu_data.py:68): every transaction row is kept in order; a row with
no master match gets a null master side; a row with several matches is
emitted once per match. -/
def leftJoin (mix : List MixRow) (master : List MasterEntry) :
    List (MixRow × Option MasterEntry) :=
  mix.flatMap fun r =>
    match matchesFor master r.itemID with
    | [] => [(r, none)]
    | ms => ms.map fun e => (r, some e)

/-- Name-resolution policy (merge_menu_data.py:74):
`df_out["Item Name"].where(df_out["Item Name"].notna(), df_out["ItemName"])`
— the master name where it is non-null, otherwise the original name. -/
def resolveName (orig : Option String) (masterName : Option String) : Option String :=
  match masterName with
  | some n => some n
  | none => orig

/-- Build one enriched output row from a join pair (merge_menu_data.py:70-77):
the final `ItemName` applies `resolveName`; classification columns come from
the master side (null when unmatched). -/
def enrichRow (r : MixRow) (me : Option MasterEntry) : OutRow :=
  { itemID := r.itemID
    itemName := resolveName r.itemName (me.bind MasterEntry.itemName)
    productClass := me.bind MasterEntry.productClass
    revenueCategory := me.bind MasterEntry.revenueCategory
    itemGroup := me.bind MasterEntry.itemGroup }

/-- The enriched output `df_out` of `main` (merge_menu_data.py:17-88):
clean both sides, left-join on the trimmed identifier, resolve names. -/
def mergeMenuData (mix : List MixRow) (raw : List MasterRaw) : List OutRow :=
  (leftJoin (cleanMix mix) (cleanMaster raw)).map fun p => enrichRow p.1 p.2

/-- The three diagnostics printed by `main` (merge_menu_data.py:94-99):
`len(df_mix)`, `df_out["ItemName"].notna().sum()`, and
`df_out[df_out["ItemName"].isna()]["ItemID"].nunique()`. -/
def diagnostics (mix : List MixRow) (raw : List MasterRaw) : Nat × Nat × Nat :=
  let out := mergeMenuData mix raw
  (mix.length,
   (out.filter fun r => r.itemName.isSome).length,
   ((out.filter fun r => r.itemName.isNone).map OutRow.itemID).dedup.length)

/-- The alias-rename step (merge_menu_data.py:22-25): rename `Item ID`, or
else `ItemId`, to `ItemID`, unless `ItemID` is already a column. -/
def renameKey (cs : List String) : List String :=
  if decide ("Item ID" ∈ cs) && !(decide ("ItemID" ∈ cs)) then
    cs.map fun c => if c = "Item ID" then "ItemID" else c
  else if decide ("ItemId" ∈ cs) && !(decide ("ItemID" ∈ cs)) then
    cs.map fun c => if c = "ItemId" then "ItemID" else c
  else cs

/-- The fail-fast check (merge_menu_data.py:27-28): raise `ValueError` when
no `ItemID` column remains after renaming. -/
def finalizeKey (cs : List String) : Except String (List String) :=
  if decide ("ItemID" ∈ cs) then Except.ok cs
  else Except.error "Could not find ItemID (or Item ID) in the menu mix CSV."

/-- Key-column normalization (merge_menu_data.py:19-28): strip all headers,
rename the first present alias to the canonical `ItemID`, and fail when no
identifier column remains. -/
def normalizeKeyColumns (cols : List String) : Except String (List String) :=
  finalizeKey (renameKey (cols.map pyStrip))

/-- Whether an enrichment run aborts (the `raise ValueError` path). -/
def raisesMissingKey (cols : List String) : Bool :=
  match normalizeKeyColumns cols with
  | Except.error _ => true
  | Except.ok _ => false

example :
    mergeMenuData [{ itemID := "1", itemName := some "Orig" }]
      [{ itemID := some "1", itemName := some "Master", productClass := some "PC",
         revenueCategory := none, itemGroup := none }] =
    [{ itemID := "1", itemName := some "Master", productClass := some "PC",
       revenueCategory := none, itemGroup := none }] := by decide

example :
    mergeMenuData [{ itemID := "1", itemName := some "Orig" }]
      [{ itemID := some "1", itemName := none, productClass := none,
         revenueCategory := none, itemGroup := none }] =
    [{ itemID := "1", itemName := some "Orig", productClass := none,
       revenueCategory := none, itemGroup := none }] := by decide

example : raisesMissingKey ["Foo", "Bar"] = true := by decide
example : raisesMissingKey ["Foo", " ItemId "] = false := by decide
example : diagnostics [{ itemID := "1", itemName := some "Burger" }] [] = (1, 1, 0) := by decide

/-! ## Dashboard model (pmix_dashboard.py) -/

/-- A row of the dashboard's working table after `load_data`
(pmix_dashboard.py:13-53): parsed date, derived calendar features, cleaned
text columns (`astype(str).str.strip()`, so always plain strings), and the
three numeric measures (`pd.to_numeric(errors="coerce")`, so nullable). -/
structure DRow where
  businessDate : Date
  month : Date
  weekStart : Date
  dayOfWeek : Option String
  skiSeason : Option String
  profitCenterName : String
  productClass : String
  revenueCategory : String
  itemGroup : String
  itemName : String
  itemsSold : Option Int
  netRevenue : Option Int
  avgNetPrice : Option Int
deriving DecidableEq

/-- The five filter / comparison columns of the dashboard. -/
inductive DCol where
  | profitCenterName
  | productClass
  | revenueCategory
  | itemGroup
  | itemName
deriving DecidableEq

/-- Column access `q[col]` for the text columns. -/
def getCol (r : DRow) : DCol → String
  | DCol.profitCenterName => r.profitCenterName
  | DCol.productClass => r.productClass
  | DCol.revenueCategory => r.revenueCategory
  | DCol.itemGroup => r.itemGroup
  | DCol.itemName => r.itemName

/-- The three numeric metric columns. -/
inductive MetricCol where
  | itemsSold
  | netRevenue
  | avgNetPrice
deriving DecidableEq

/-- Column access `q[metric]`. -/
def metricOf (m : MetricCol) (r : DRow) : Option Int :=
  match m with
  | MetricCol.itemsSold => r.itemsSold
  | MetricCol.netRevenue => r.netRevenue
  | MetricCol.avgNetPrice => r.avgNetPrice

/-- `filter_df` (pmix_dashboard.py:55-66): apply each column-membership
filter in turn (an empty selection means no filter on that column), then
the optional inclusive date bounds. -/
def filter_df (df : List DRow) (filters : List (DCol × List String))
    (dateRange : Option (Option Date × Option Date)) : List DRow :=
  let q := filters.foldl
    (fun q p =>
      if p.2.isEmpty then q
      else q.filter fun r => decide (getCol r p.1 ∈ p.2))
    df
  match dateRange with
  | none => q
  | some (s, e) =>
    let q := match s with
      | none => q
      | some sd => q.filter fun r => dateLe sd r.businessDate
    match e with
    | none => q
    | some ed => q.filter fun r => dateLe r.businessDate ed

/-- The fixed weekday order used by the `Day of Week` slice
(pmix_dashboard.py:75). -/
def orderedDays : List String :=
  ["Monday", "Tuesday", "Wednesday", "Thursday", "Friday", "Saturday", "Sunday"]

/-- The in-place assignment
`q["DayOfWeek"] = pd.Categorical(q["DayOfWeek"], categories=ordered_days, ordered=True)`
(pmix_dashboard.py:76) on one row: a value outside the category list becomes
null; category values are kept. -/
def coerceDowRow (r : DRow) : DRow :=
  { r with dayOfWeek := r.dayOfWeek.bind fun s =>
      if decide (s ∈ orderedDays) then some s else none }

/-- A grouping key value of `aggregate`: the time-bucket column selected by
the time slice. -/
inductive TimeKeyVal where
  | month (d : Date)
  | week (d : Date)
  | dayOfWeek (s : Option String)
  | skiSeason (s : Option String)
deriving DecidableEq

/-- Time-bucket key selection of `aggregate` (pmix_dashboard.py:69-81),
including the final `else` fallback to `Month`. -/
def keyOf (ts : String) (r : DRow) : TimeKeyVal :=
  if ts = "Month" then TimeKeyVal.month r.month
  else if ts = "Week" then TimeKeyVal.week r.weekStart
  else if ts = "Day of Week" then TimeKeyVal.dayOfWeek r.dayOfWeek
  else if ts = "Ski Season" then TimeKeyVal.skiSeason r.skiSeason
  else TimeKeyVal.month r.month

/-- The rows `aggregate` actually groups: the `Day of Week` slice first
coerces the weekday column to the ordered categorical; the `Ski Season`
slice drops rows with no season label (pmix_dashboard.py:76-79). -/
def preprocess (q : List DRow) (ts : String) : List DRow :=
  let q1 := if ts = "Day of Week" then q.map coerceDowRow else q
  if ts = "Ski Season" then q1.filter (fun r => r.skiSeason.isSome) else q1

/-- The rows contributing to one group of `aggregate`: the preprocessed rows
whose (time-bucket key, comparison value) pair equals the group's. -/
def groupRows (q : List DRow) (ts : String) (cb : Option DCol)
    (kc : TimeKeyVal × Option String) : List DRow :=
  (preprocess q ts).filter fun r => decide ((keyOf ts r, cb.map (getCol r)) = kc)

/-- `sum(min_count=1)` over one group's metric values (pmix_dashboard.py:84):
nulls are skipped; a group with no non-null contribution yields null, not 0. -/
def sumMin1 (vs : List (Option Int)) : Option Int :=
  match vs.filterMap id with
  | [] => none
  | xs => some (xs.foldl (fun a b => a + b) 0)

/-- Insertion step of a list sort. -/
def insertLe {α : Type} (le : α → α → Bool) (x : α) : List α → List α
  | [] => [x]
  | y :: ys => if le x y then x :: y :: ys else y :: insertLe le x ys

/-- Insertion sort by a boolean comparison; models the deterministic key
ordering produced by pandas `groupby(sort=True)` / `sort_values`. -/
def sortByLe {α : Type} (le : α → α → Bool) : List α → List α
  | [] => []
  | x :: xs => insertLe le x (sortByLe le xs)

/-- Lexicographic order on character lists by code point. -/
def charListLe : List Char → List Char → Bool
  | [], _ => true
  | _ :: _, [] => false
  | a :: as, b :: bs =>
    if a.toNat < b.toNat then true
    else if b.toNat < a.toNat then false
    else charListLe as bs

/-- String order (Python string comparison, lexicographic by code point).
Implemented over character lists so that it evaluates by kernel
reduction. -/
def strLe (a b : String) : Bool := charListLe a.toList b.toList

/-- Lift an order to nullable values with nulls sorted last
(pandas na_position="last"). -/
def optLe {α : Type} (le : α → α → Bool) : Option α → Option α → Bool
  | none, none => true
  | none, some _ => false
  | some _, none => true
  | some a, some b => le a b

/-- Position of a weekday in the fixed calendar order. -/
def dowIdx (s : String) : Nat := List.indexOf s orderedDays

/-- Order on time-bucket key values: months and weeks chronologically,
weekdays by the ordered categorical (Monday first), season labels as
strings; nulls last. Keys of distinct shapes never meet in one run. -/
def keyLe : TimeKeyVal → TimeKeyVal → Bool
  | TimeKeyVal.month a, TimeKeyVal.month b => dateLe a b
  | TimeKeyVal.week a, TimeKeyVal.week b => dateLe a b
  | TimeKeyVal.dayOfWeek a, TimeKeyVal.dayOfWeek b =>
      optLe (fun x y => decide (dowIdx x ≤ dowIdx y)) a b
  | TimeKeyVal.skiSeason a, TimeKeyVal.skiSeason b => optLe strLe a b
  | _, _ => true

/-- The `sort_values(by=[sort_col, compare_by])` order on group keys
(pmix_dashboard.py:85): time bucket first, comparison value second. -/
def pairLe (kc kd : TimeKeyVal × Option String) : Bool :=
  if kc.1 = kd.1 then optLe strLe kc.2 kd.2 else keyLe kc.1 kd.1

/-- A row of the aggregated table `g`: group key, optional comparison value
(null exactly when no comparison dimension is selected), summed metric. -/
structure AggRow where
  key : TimeKeyVal
  comp : Option String
  val : Option Int
deriving DecidableEq

/-- `aggregate` (pmix_dashboard.py:68-86). First component: the returned
table `g` — one row per distinct (time-bucket, comparison-value) pair,
sorted, with the `min_count=1` sum of the metric. Second component: the
caller's table after the call — the `Day of Week` slice reassigns the
`DayOfWeek` column of the passed frame in place (line 76); every other
slice leaves it untouched. -/
def aggregate (q : List DRow) (ts : String) (cb : Option DCol) (m : MetricCol) :
    List AggRow × List DRow :=
  let q2 := preprocess q ts
  let keys := (q2.map fun r => (keyOf ts r, cb.map (getCol r))).dedup
  let g := (sortByLe pairLe keys).map fun kc =>
    { key := kc.1, comp := kc.2,
      val := sumMin1 ((groupRows q ts cb kc).map (metricOf m)) }
  (g, if ts = "Day of Week" then q.map coerceDowRow else q)

/-- Default pandas `sum()` over the already-aggregated metric values used
for the Top-N totals (pmix_dashboard.py:91): nulls skipped, empty sum 0. -/
def sumSkipNA (vs : List (Option Int)) : Int :=
  (vs.filterMap id).foldl (fun a b => a + b) 0

/-- `astype(str)` on a nullable string cell: pandas renders a missing value
as the string "nan". -/
def compToStr : Option String → String
  | some s => s
  | none => "nan"

/-- The per-comparison-value totals of `make_fig` (pmix_dashboard.py:91):
group the aggregated table by the comparison column and sum the metric. -/
def totalsFor (data : List AggRow) : List (Option String × Int) :=
  (sortByLe (optLe strLe) (data.map AggRow.comp).dedup).map fun k =>
    (k, sumSkipNA ((data.filter fun r => decide (r.comp = k)).map AggRow.val))

/-- The table drawn and exported as the "aggregated view": `make_fig`
(pmix_dashboard.py:88-93) keeps only the rows whose comparison value is
among the Top-N by total metric; with no comparison dimension the
aggregated table passes through. The function reads `agg` only — `make_fig`
operates on `agg.copy()`, so the aggregated table itself is never altered. -/
def make_fig_view (agg : List AggRow) (cb : Option DCol) (topN : Nat) : List AggRow :=
  match cb with
  | none => agg
  | some _ =>
    let totals := totalsFor agg
    let keep := ((sortByLe (fun a b => decide (b.2 ≤ a.2)) totals).take topN).map
      fun p => compToStr p.1
    agg.filter fun r => decide (compToStr r.comp ∈ keep)

/-- A sample working-table row for concrete checks: fixed text fields, the
given date/weekday/season/name, and `NetRevenue` as the only metric. -/
def mkRow (bd : Date) (dow : Option String) (ss : Option String) (name : String)
    (nr : Option Int) : DRow :=
  { businessDate := bd
    month := { year := bd.year, month := bd.month, day := 1 }
    weekStart := bd
    dayOfWeek := dow
    skiSeason := ss
    profitCenterName := "PC"
    productClass := "Cls"
    revenueCategory := "Rev"
    itemGroup := "Grp"
    itemName := name
    itemsSold := none
    netRevenue := nr
    avgNetPrice := none }

example :
    aggregate [] "Month" none MetricCol.netRevenue = ([], []) := by decide

example :
    (aggregate
      [mkRow { year := 2024, month := 1, day := 5 } (some "Friday") none "A" none,
       mkRow { year := 2024, month := 1, day := 6 } (some "Saturday") none "A" (some 3)]
      "Month" none MetricCol.netRevenue).1 =
    [{ key := TimeKeyVal.month { year := 2024, month := 1, day := 1 },
       comp := none, val := some 3 }] := by decide

example :
    (aggregate
      [mkRow { year := 2024, month := 1, day := 5 } (some "Friday") none "A" none]
      "Month" none MetricCol.netRevenue).1 =
    [{ key := TimeKeyVal.month { year := 2024, month := 1, day := 1 },
       comp := none, val := none }] := by decide

example :
    make_fig_view
      [{ key := TimeKeyVal.month { year := 2024, month := 1, day := 1 },
         comp := some "A", val := some 4 },
       { key := TimeKeyVal.month { year := 2024, month := 1, day := 1 },
         comp := some "B", val := some 7 }]
      (some DCol.itemName) 1 =
    [{ key := TimeKeyVal.month { year := 2024, month := 1, day := 1 },
       comp := some "B", val := some 7 }] := by decide

/-! ## Helper lemmas -/

theorem mem_insertLe {α : Type} (le : α → α → Bool) (x a : α) (l : List α) :
    a ∈ insertLe le x l ↔ a = x ∨ a ∈ l := by
  induction l with
  | nil => simp [insertLe]
  | cons y ys ih =>
    simp only [insertLe]
    split
    · simp [or_comm, or_left_comm]
    · simp only [List.mem_cons, ih]
      tauto

theorem length_insertLe {α : Type} (le : α → α → Bool) (x : α) (l : List α) :
    (insertLe le x l).length = l.length + 1 := by
  induction l with
  | nil => rfl
  | cons y ys ih =>
    simp only [insertLe]
    split
    · simp
    · simp [ih]

theorem mem_sortByLe {α : Type} (le : α → α → Bool) (a : α) (l : List α) :
    a ∈ sortByLe le l ↔ a ∈ l := by
  induction l with
  | nil => simp [sortByLe]
  | cons y ys ih => simp [sortByLe, mem_insertLe, ih]

theorem length_sortByLe {α : Type} (le : α → α → Bool) (l : List α) :
    (sortByLe le l).length = l.length := by
  induction l with
  | nil => rfl
  | cons y ys ih => simp [sortByLe, length_insertLe, ih]

theorem find?_eq_head?_filter {α : Type} (p : α → Bool) (l : List α) :
    l.find? p = (l.filter p).head? := by
  induction l with
  | nil => rfl
  | cons y ys ih =>
    by_cases h : p y
    · rw [List.find?_cons_of_pos _ h, List.filter_cons_of_pos h, List.head?_cons]
    · rw [List.find?_cons_of_neg _ h, List.filter_cons_of_neg h, ih]

theorem matchesFor_length_le_one (master : List MasterEntry)
    (hnd : (master.map MasterEntry.itemID).Nodup) (id : String) :
    (matchesFor master id).length ≤ 1 := by
  induction master with
  | nil => simp [matchesFor]
  | cons e es ih =>
    simp only [List.map_cons, List.nodup_cons] at hnd
    by_cases h : e.itemID == id
    · have hid : e.itemID = id := by simpa using h
      have hnil : es.filter (fun x => x.itemID == id) = [] := by
        apply List.filter_eq_nil_iff.mpr
        intro x hx hbeq
        have hx2 : x.itemID = id := by simpa using hbeq
        exact hnd.1 (List.mem_map.mpr ⟨x, hx, by rw [hx2, hid]⟩)
      simp [matchesFor, List.filter_cons, h, hnil]
    · simpa [matchesFor, List.filter_cons, h] using ih hnd.2

theorem leftJoin_nodup_eq (mix : List MixRow) (master : List MasterEntry)
    (hnd : (master.map MasterEntry.itemID).Nodup) :
    leftJoin mix master =
      mix.map fun r => (r, master.find? fun e => e.itemID == r.itemID) := by
  induction mix with
  | nil => rfl
  | cons r rs ih =>
    have hfind : (master.find? fun e => e.itemID == r.itemID) =
        (matchesFor master r.itemID).head? := by
      rw [find?_eq_head?_filter]
      rfl
    have hstep :
        (match matchesFor master r.itemID with
          | [] => [(r, (none : Option MasterEntry))]
          | ms => ms.map fun e => (r, some e)) =
        [(r, master.find? fun e => e.itemID == r.itemID)] := by
      cases hm : matchesFor master r.itemID with
      | nil => simp [hfind, hm]
      | cons e ms =>
        have hlen := matchesFor_length_le_one master hnd r.itemID
        rw [hm] at hlen
        have hms : ms = [] := by
          cases ms with
          | nil => rfl
          | cons a as => simp at hlen
        subst hms
        simp [hfind, hm]
    simp only [leftJoin, List.flatMap_cons, List.map_cons]
    simp only [leftJoin] at ih
    rw [hstep, ih, List.singleton_append]

theorem mergeMenuData_get? (mix : List MixRow) (raw : List MasterRaw)
    (hnd : ((cleanMaster raw).map MasterEntry.itemID).Nodup) (i : Nat) :
    (mergeMenuData mix raw).get? i =
      ((cleanMix mix).get? i).map fun r =>
        enrichRow r ((cleanMaster raw).find? fun e => e.itemID == r.itemID) := by
  unfold mergeMenuData
  rw [leftJoin_nodup_eq _ _ hnd, List.map_map, List.get?_map]
  rfl

theorem leftJoin_length (mix : List MixRow) (master : List MasterEntry) :
    (leftJoin mix master).length =
      (mix.map fun r => max (matchesFor master r.itemID).length 1).sum := by
  induction mix with
  | nil => rfl
  | cons r rs ih =>
    simp only [leftJoin, List.flatMap_cons, List.length_append, List.map_cons,
      List.sum_cons]
    simp only [leftJoin] at ih
    rw [ih]
    congr 1
    cases hm : matchesFor master r.itemID with
    | nil => simp
    | cons e ms =>
      have h1 : 1 ≤ (e :: ms).length := Nat.succ_le_succ (Nat.zero_le _)
      simp [Nat.max_eq_left h1]

theorem sum_map_one {α : Type} (l : List α) (f : α → Nat)
    (h : ∀ x ∈ l, f x = 1) : (l.map f).sum = l.length := by
  induction l with
  | nil => rfl
  | cons x xs ih =>
    simp only [List.map_cons, List.sum_cons, List.length_cons,
      h x (List.mem_cons_self x xs),
      ih fun y hy => h y (List.mem_cons_of_mem x hy)]
    omega

/-! ## Concrete fixtures used by witnesses and counterexamples -/

/-- A master-catalog row with all-blank classification cells. -/
def rawEntry (id : Option String) (name : Option String) : MasterRaw :=
  { itemID := id, itemName := name, productClass := none,
    revenueCategory := none, itemGroup := none }

/-- A two-row transaction fixture. -/
def mixEx2 : List MixRow :=
  [{ itemID := "1", itemName := some "x" }, { itemID := "9", itemName := some "y" }]

/-- A duplicate-free two-entry master fixture. -/
def masterEx2 : List MasterRaw :=
  [rawEntry (some "1") (some "A"), rawEntry (some "2") (some "B")]

/-! ## Claims -/

/-- C3: for every transaction input and master catalog, the enriched output
has one row per transaction row and per-row master match (a transaction row
with k ≥ 1 cleaned master matches is emitted k times, one with no match is
emitted once); in particular, when the cleaned master entries have pairwise
distinct `ItemID`s, the output row count equals the transaction row
count. -/
theorem merge_row_count (mix : List MixRow) (raw : List MasterRaw) :
    ((mergeMenuData mix raw).length =
      ((cleanMix mix).map fun r =>
        max (matchesFor (cleanMaster raw) r.itemID).length 1).sum) ∧
    (((cleanMaster raw).map MasterEntry.itemID).Nodup →
      (mergeMenuData mix raw).length = mix.length) := by
  have hlen : (mergeMenuData mix raw).length =
      ((cleanMix mix).map fun r =>
        max (matchesFor (cleanMaster raw) r.itemID).length 1).sum := by
    unfold mergeMenuData
    rw [List.length_map, leftJoin_length]
  refine ⟨hlen, fun hnd => ?_⟩
  rw [hlen, sum_map_one]
  · exact List.length_map _ _
  · intro r _
    have := matchesFor_length_le_one (cleanMaster raw) hnd r.itemID
    omega

/-- C3 witness: on a concrete two-row transaction input and a duplicate-free
master, the nodup hypothesis of `merge_row_count` is discharged and the
enriched output has exactly the input's two rows. -/
theorem merge_row_count_witness :
    ((cleanMaster masterEx2).map MasterEntry.itemID).Nodup ∧
    (mergeMenuData mixEx2 masterEx2).length = 2 :=
  ⟨by decide, (merge_row_count mixEx2 masterEx2).2 (by decide)⟩

theorem raises_iff (cols : List String) :
    raisesMissingKey cols = true ↔ "ItemID" ∉ renameKey (cols.map pyStrip) := by
  unfold raisesMissingKey normalizeKeyColumns finalizeKey
  by_cases h : "ItemID" ∈ renameKey (cols.map pyStrip)
  · simp [h]
  · simp [h]

theorem renameKey_mem_iff (cs : List String) :
    "ItemID" ∉ renameKey cs ↔
      ("ItemID" ∉ cs ∧ "Item ID" ∉ cs ∧ "ItemId" ∉ cs) := by
  unfold renameKey
  by_cases h2 : "ItemID" ∈ cs
  · simp [h2]
  · by_cases h1 : "Item ID" ∈ cs
    · have hmem : "ItemID" ∈ cs.map (fun c => if c = "Item ID" then "ItemID" else c) :=
        List.mem_map.mpr ⟨"Item ID", h1, by simp⟩
      simp only [h1, h2]
      simp [hmem, h1]
    · by_cases h3 : "ItemId" ∈ cs
      · have hmem : "ItemID" ∈ cs.map (fun c => if c = "ItemId" then "ItemID" else c) :=
          List.mem_map.mpr ⟨"ItemId", h3, by simp⟩
        simp only [h1, h2, h3]
        simp [hmem, h3]
      · simp [h1, h2, h3]

/-- C6: after stripping all column headers, the enrichment run raises the
missing-key error exactly when none of the aliases `ItemID`, `Item ID`,
`ItemId` is a column; on success the canonical `ItemID` column is
present. -/
theorem missing_key_column_iff (cols : List String) :
    (raisesMissingKey cols = true ↔
      ("ItemID" ∉ cols.map pyStrip ∧ "Item ID" ∉ cols.map pyStrip ∧
        "ItemId" ∉ cols.map pyStrip)) ∧
    (∀ out, normalizeKeyColumns cols = Except.ok out → "ItemID" ∈ out) := by
  constructor
  · rw [raises_iff, renameKey_mem_iff]
  · intro out hout
    unfold normalizeKeyColumns finalizeKey at hout
    split at hout
    · cases hout
      next h => exact of_decide_eq_true h
    · cases hout

/-- C6 witness: a header list whose only identifier column is a padded
`ItemId` alias normalizes successfully and the iff of
`missing_key_column_iff` evaluates as expected on it. -/
theorem missing_key_column_iff_witness :
    (raisesMissingKey ["Foo", " ItemId "] = true ↔
      ("ItemID" ∉ ["Foo", " ItemId "].map pyStrip ∧
        "Item ID" ∉ ["Foo", " ItemId "].map pyStrip ∧
        "ItemId" ∉ ["Foo", " ItemId "].map pyStrip)) ∧
    "ItemID" ∈ ["Foo", "ItemID"] :=
  ⟨(missing_key_column_iff ["Foo", " ItemId "]).1,
   (missing_key_column_iff ["Foo", " ItemId "]).2 ["Foo", "ItemID"] rfl⟩

/-- C2 counterexample: a transaction row whose `ItemID` is present in the
master, but whose master entry has a blank name. The enriched name keeps
the original transaction name instead of the master's (null) name, so the
claim "the output name equals the master's name whenever the ItemID is
present in the master" fails at this input. -/
theorem enrich_name_counterexample :
    ((cleanMaster [rawEntry (some "1") none]).find?
        (fun e => e.itemID == "1")).isSome = true ∧
    ((cleanMaster [rawEntry (some "1") none]).find?
        (fun e => e.itemID == "1")).bind MasterEntry.itemName = none ∧
    (mergeMenuData [{ itemID := "1", itemName := some "Orig" }]
        [rawEntry (some "1") none]).map OutRow.itemName = [some "Orig"] ∧
    some "Orig" ≠ (none : Option String) := by
  refine ⟨rfl, rfl, rfl, ?_⟩
  simp

/-- C2 (amended): under a duplicate-free cleaned master, the i-th enriched
row is the i-th cleaned transaction row enriched with its unique master
match; its name is the master's name when the match exists and carries a
non-null name, and the original transaction name otherwise (no match, or a
matched entry whose name cell is blank). -/
theorem enrich_name_policy (mix : List MixRow) (raw : List MasterRaw)
    (hnd : ((cleanMaster raw).map MasterEntry.itemID).Nodup) (i : Nat) :
    ((mergeMenuData mix raw).get? i).map OutRow.itemName =
      ((cleanMix mix).get? i).map fun r =>
        resolveName r.itemName
          (((cleanMaster raw).find? fun e => e.itemID == r.itemID).bind
            MasterEntry.itemName) := by
  rw [mergeMenuData_get? mix raw hnd i, Option.map_map]
  rfl

/-- C2 witness: with a concrete matched row (master name present) and a
concrete unmatched row, the amended policy instantiates to: the first
output name is the master's name, the second the original name. -/
theorem enrich_name_policy_witness :
    ((cleanMaster masterEx2).map MasterEntry.itemID).Nodup ∧
    ((mergeMenuData mixEx2 masterEx2).get? 0).map OutRow.itemName =
      some (some "A") ∧
    ((mergeMenuData mixEx2 masterEx2).get? 1).map OutRow.itemName =
      some (some "y") :=
  ⟨by decide,
   by rw [enrich_name_policy mixEx2 masterEx2 (by decide) 0]; rfl,
   by rw [enrich_name_policy mixEx2 masterEx2 (by decide) 1]; rfl⟩

/-- C10: a transaction row matched by a master entry whose name cell is
blank keeps the transaction's original name — the master-name override is
per value, not per matched identifier. -/
theorem null_master_name_keeps_original (mix : List MixRow) (raw : List MasterRaw)
    (hnd : ((cleanMaster raw).map MasterEntry.itemID).Nodup)
    (i : Nat) (r : MixRow) (e : MasterEntry)
    (hr : (cleanMix mix).get? i = some r)
    (he : (cleanMaster raw).find? (fun x => x.itemID == r.itemID) = some e)
    (hn : e.itemName = none) :
    ((mergeMenuData mix raw).get? i).map OutRow.itemName = some r.itemName := by
  rw [mergeMenuData_get? mix raw hnd i, Option.map_map, hr]
  simp [Function.comp, enrichRow, he, hn, resolveName]

/-- C10 witness: concrete instance — master entry `"1"` exists but has a
blank name; the enriched row keeps the original name `"Orig"`. -/
theorem null_master_name_keeps_original_witness :
    ((mergeMenuData [{ itemID := "1", itemName := some "Orig" }]
        [rawEntry (some "1") none]).get? 0).map OutRow.itemName =
      some (some "Orig") :=
  null_master_name_keeps_original
    [{ itemID := "1", itemName := some "Orig" }] [rawEntry (some "1") none]
    (by decide) 0 { itemID := "1", itemName := some "Orig" }
    { itemID := "1", itemName := none, productClass := none,
      revenueCategory := none, itemGroup := none }
    rfl rfl rfl

/-- C9 counterexample: one transaction row with a non-null original name and
an empty master. The code reports (rows=1, named-rows=1, nameless-ids=0),
while the claim's reading — master-match count and distinct unmatched
identifiers — would give (1, 0, 1): the row has no master match yet still
counts as "resolved" because it kept its original non-null name. -/
theorem diagnostics_counterexample :
    diagnostics [{ itemID := "1", itemName := some "Burger" }] [] = (1, 1, 0) ∧
    ((leftJoin (cleanMix [{ itemID := "1", itemName := some "Burger" }])
        (cleanMaster [])).filter fun p => p.2.isSome).length = 0 ∧
    (((cleanMix [{ itemID := "1", itemName := some "Burger" }]).filter fun r =>
        (matchesFor (cleanMaster []) r.itemID).isEmpty).map
        MixRow.itemID).dedup.length = 1 ∧
    (1 : Nat) ≠ 0 := by
  refine ⟨rfl, rfl, rfl, ?_⟩
  simp

/-- C9 (amended): the diagnostics are exactly (a) the transaction row
count, (b) the number of joined rows whose final name is non-null — a
master name was found, or the original name was non-null and retained — and
(c) the number of distinct identifiers among joined rows whose final name
is null (master name absent and original name blank). They are plain counts
over the join, not the master-match count and not the distinct
unmatched-identifier count. -/
theorem diagnostics_characterization (mix : List MixRow) (raw : List MasterRaw) :
    diagnostics mix raw =
      (mix.length,
       ((leftJoin (cleanMix mix) (cleanMaster raw)).filter fun p =>
          (p.2.bind MasterEntry.itemName).isSome || p.1.itemName.isSome).length,
       (((leftJoin (cleanMix mix) (cleanMaster raw)).filter fun p =>
          !((p.2.bind MasterEntry.itemName).isSome || p.1.itemName.isSome)).map
          fun p => p.1.itemID).dedup.length) := by
  have hpos : ∀ q : MixRow × Option MasterEntry,
      (enrichRow q.1 q.2).itemName.isSome =
        ((q.2.bind MasterEntry.itemName).isSome || q.1.itemName.isSome) := by
    intro q
    cases hm : q.2.bind MasterEntry.itemName with
    | none => simp [enrichRow, resolveName, hm]
    | some n => simp [enrichRow, resolveName, hm]
  have hneg : ∀ q : MixRow × Option MasterEntry,
      (enrichRow q.1 q.2).itemName.isNone =
        !((q.2.bind MasterEntry.itemName).isSome || q.1.itemName.isSome) := by
    intro q
    rw [← hpos q]
    cases (enrichRow q.1 q.2).itemName <;> rfl
  have h1 : (mergeMenuData mix raw).filter (fun r => r.itemName.isSome) =
      ((leftJoin (cleanMix mix) (cleanMaster raw)).filter fun p =>
        (p.2.bind MasterEntry.itemName).isSome || p.1.itemName.isSome).map
        fun p => enrichRow p.1 p.2 := by
    unfold mergeMenuData
    rw [List.filter_map]
    congr 1
    exact List.filter_congr fun q _ => hpos q
  have h2 : (mergeMenuData mix raw).filter (fun r => r.itemName.isNone) =
      ((leftJoin (cleanMix mix) (cleanMaster raw)).filter fun p =>
        !((p.2.bind MasterEntry.itemName).isSome || p.1.itemName.isSome)).map
        fun p => enrichRow p.1 p.2 := by
    unfold mergeMenuData
    rw [List.filter_map]
    congr 1
    exact List.filter_congr fun q _ => hneg q
  unfold diagnostics
  refine Prod.ext rfl (Prod.ext ?_ ?_)
  · simp only [h1, List.length_map]
  · simp only [h2, List.map_map]
    rfl

theorem dateLe_mk_iff (ya : Int) (ma da : Nat) (yb : Int) (mb db : Nat) :
    dateLe { year := ya, month := ma, day := da } { year := yb, month := mb, day := db } =
      true ↔
      (ya < yb ∨ (ya = yb ∧ (ma < mb ∨ (ma = mb ∧ da ≤ db)))) := by
  unfold dateLe
  simp

theorem seasonCheck_eq_some (sy : Int) (d : Date)
    (h1 : dateLe { year := sy, month := 11, day := 10 } d = true)
    (h2 : dateLe d { year := sy + 1, month := 4, day := 20 } = true) :
    seasonCheck sy d = some (seasonStr sy) := by
  unfold seasonCheck
  simp [h1, h2]

/-- C1: for every parseable business date, the derived ski-season label is
`seasonStr Y` exactly when the date lies in the closed interval
[Nov 10 of year Y, Apr 20 of year Y+1], and absent when the date lies in no
such interval; and for every year Y the boundary dates behave as claimed:
Nov 9 off-season, Nov 10 starts season Y, Apr 20 ends season Y-1, Apr 21
off-season. -/
theorem ski_season_spec (d : Date) (hd : validDate d = true) :
    (∀ Y : Int,
      (dateLe { year := Y, month := 11, day := 10 } d &&
        dateLe d { year := Y + 1, month := 4, day := 20 }) = true →
      ski_season_label d = some (seasonStr Y)) ∧
    ((∀ Y : Int,
      (dateLe { year := Y, month := 11, day := 10 } d &&
        dateLe d { year := Y + 1, month := 4, day := 20 }) = false) →
      ski_season_label d = none) ∧
    (∀ Y : Int,
      ski_season_label { year := Y, month := 11, day := 9 } = none ∧
      ski_season_label { year := Y, month := 11, day := 10 } = some (seasonStr Y) ∧
      ski_season_label { year := Y, month := 4, day := 20 } = some (seasonStr (Y - 1)) ∧
      ski_season_label { year := Y, month := 4, day := 21 } = none) := by
  obtain ⟨y, m, dy⟩ := d
  refine ⟨?_, ?_, ?_⟩
  · intro Y hY
    rw [Bool.and_eq_true, dateLe_mk_iff, dateLe_mk_iff] at hY
    unfold ski_season_label
    dsimp only
    split_ifs with hb1 hb2
    · simp only [Bool.or_eq_true, Bool.and_eq_true, decide_eq_true_eq] at hb1
      have hYy : Y = y := by omega
      subst hYy
      apply seasonCheck_eq_some
      · rw [dateLe_mk_iff]; omega
      · rw [dateLe_mk_iff]; omega
    · simp only [Bool.or_eq_true, Bool.and_eq_true, decide_eq_true_eq, not_or,
        not_and, not_lt, not_le] at hb1 hb2
      have hYy : Y = y - 1 := by omega
      subst hYy
      apply seasonCheck_eq_some
      · rw [dateLe_mk_iff]; omega
      · rw [dateLe_mk_iff]; omega
    · exfalso
      simp only [Bool.or_eq_true, Bool.and_eq_true, decide_eq_true_eq, not_or,
        not_and, not_lt, not_le] at hb1 hb2
      omega
  · intro hN
    unfold ski_season_label
    dsimp only
    split_ifs with hb1 hb2
    · exfalso
      simp only [Bool.or_eq_true, Bool.and_eq_true, decide_eq_true_eq] at hb1
      have h := hN y
      have h' : ¬((dateLe { year := y, month := 11, day := 10 }
            { year := y, month := m, day := dy } &&
          dateLe { year := y, month := m, day := dy }
            { year := y + 1, month := 4, day := 20 }) = true) := by
        rw [h]; simp
      rw [Bool.and_eq_true, dateLe_mk_iff, dateLe_mk_iff] at h'
      omega
    · exfalso
      simp only [Bool.or_eq_true, Bool.and_eq_true, decide_eq_true_eq, not_or,
        not_and, not_lt, not_le] at hb1 hb2
      have h := hN (y - 1)
      have h' : ¬((dateLe { year := y - 1, month := 11, day := 10 }
            { year := y, month := m, day := dy } &&
          dateLe { year := y, month := m, day := dy }
            { year := y - 1 + 1, month := 4, day := 20 }) = true) := by
        rw [h]; simp
      rw [Bool.and_eq_true, dateLe_mk_iff, dateLe_mk_iff] at h'
      omega
    · rfl
  · intro Y
    refine ⟨?_, ?_, ?_, ?_⟩
    · simp [ski_season_label]
    · have h1 : dateLe { year := Y, month := 11, day := 10 }
          { year := Y, month := 11, day := 10 } = true := by
        rw [dateLe_mk_iff]; omega
      have h2 : dateLe { year := Y, month := 11, day := 10 }
          { year := Y + 1, month := 4, day := 20 } = true := by
        rw [dateLe_mk_iff]; omega
      simp [ski_season_label, seasonCheck, h1, h2]
    · have h1 : dateLe { year := Y - 1, month := 11, day := 10 }
          { year := Y, month := 4, day := 20 } = true := by
        rw [dateLe_mk_iff]; omega
      have h2 : dateLe { year := Y, month := 4, day := 20 }
          { year := Y, month := 4, day := 20 } = true := by
        rw [dateLe_mk_iff]; omega
      simp [ski_season_label, seasonCheck, h1, h2]
    · simp [ski_season_label]

/-- C1 witness: Jan 15, 2025 is a parseable date inside
[Nov 10 2024, Apr 20 2025]; `ski_season_spec` instantiates to give it the
2024-2025 season label. -/
theorem ski_season_spec_witness :
    validDate { year := 2025, month := 1, day := 15 } = true ∧
    ski_season_label { year := 2025, month := 1, day := 15 } =
      some (seasonStr 2024) :=
  ⟨by decide,
   (ski_season_spec { year := 2025, month := 1, day := 15 } (by decide)).1 2024
     (by decide)⟩

theorem sumMin1_eq_none {vs : List (Option Int)} (h : ∀ v ∈ vs, v = none) :
    sumMin1 vs = none := by
  unfold sumMin1
  have hnil : vs.filterMap id = [] :=
    List.filterMap_eq_nil_iff.mpr (by simpa using h)
  rw [hnil]

theorem preprocess_nil (ts : String) : preprocess [] ts = [] := by
  simp [preprocess]

theorem aggregate_nil_fst (ts : String) (cb : Option DCol) (m : MetricCol) :
    (aggregate ([] : List DRow) ts cb m).1 = [] := by
  unfold aggregate
  rw [preprocess_nil]
  rfl

theorem filter_foldl_id (df : List DRow) (fs : List (DCol × List String))
    (hfs : ∀ p ∈ fs, p.2 = []) :
    fs.foldl
      (fun q p =>
        if p.2.isEmpty then q
        else q.filter fun r => decide (getCol r p.1 ∈ p.2)) df = df := by
  induction fs generalizing df with
  | nil => rfl
  | cons p ps ih =>
    have hp : p.2 = [] := hfs p (List.mem_cons_self p ps)
    rw [List.foldl_cons, hp]
    exact ih df fun x hx => hfs x (List.mem_cons_of_mem p hx)

theorem mem_filter_df (df : List DRow) (fs : List (DCol × List String))
    (dr : Option (Option Date × Option Date)) (r : DRow)
    (hr : r ∈ filter_df df fs dr) : r ∈ df := by
  have hfold : ∀ (gs : List (DCol × List String)) (d0 : List DRow) (x : DRow),
      x ∈ gs.foldl
        (fun q p =>
          if p.2.isEmpty then q
          else q.filter fun rr => decide (getCol rr p.1 ∈ p.2)) d0 →
      x ∈ d0 := by
    intro gs
    induction gs with
    | nil => intro d0 x hx; exact hx
    | cons p ps ih =>
      intro d0 x hx
      rw [List.foldl_cons] at hx
      have hx2 := ih _ x hx
      by_cases hp : p.2.isEmpty
      · rwa [if_pos hp] at hx2
      · rw [if_neg hp] at hx2
        exact (List.mem_filter.mp hx2).1
  unfold filter_df at hr
  rcases dr with _ | ⟨s, e⟩
  · exact hfold fs df r hr
  · rcases s with _ | sd <;> rcases e with _ | ed <;> dsimp only at hr
    · exact hfold fs df r hr
    · exact hfold fs df r (List.mem_filter.mp hr).1
    · exact hfold fs df r (List.mem_filter.mp hr).1
    · exact hfold fs df r (List.mem_filter.mp (List.mem_filter.mp hr).1).1

/-- The caller-visible table after a call to `aggregate`: only the
`Day of Week` slice reassigns a column of the passed frame. -/
theorem aggregate_effect (q : List DRow) (ts : String) (cb : Option DCol)
    (m : MetricCol) :
    (aggregate q ts cb m).2 =
      if ts = "Day of Week" then q.map coerceDowRow else q := rfl

theorem coerceDowRow_id (r : DRow)
    (h : ∀ s, r.dayOfWeek = some s → s ∈ orderedDays) :
    coerceDowRow r = r := by
  cases r with
  | mk bd mo ws dow ss pcn pc rc ig inm is nr anp =>
    cases dow with
    | none => rfl
    | some s =>
      have hs : s ∈ orderedDays := h s rfl
      simp [coerceDowRow, hs]

theorem map_coerceDowRow_id (l : List DRow)
    (h : ∀ r ∈ l, ∀ s, r.dayOfWeek = some s → s ∈ orderedDays) :
    l.map coerceDowRow = l := by
  induction l with
  | nil => rfl
  | cons r rs ih =>
    rw [List.map_cons, coerceDowRow_id r (h r (List.mem_cons_self r rs)),
      ih fun x hx => h x (List.mem_cons_of_mem r hx)]

/-! ## Dashboard fixtures -/

/-- A one-row table whose only metric value is null. -/
def q0 : List DRow :=
  [mkRow { year := 2024, month := 1, day := 5 } (some "Friday") none "A" none]

/-- The aggregated row `q0` produces for the `Month` slice. -/
def aggNullRow : AggRow :=
  { key := TimeKeyVal.month { year := 2024, month := 1, day := 1 },
    comp := none, val := none }

/-- A one-row table with a well-formed weekday name. -/
def qGood : List DRow :=
  [mkRow { year := 2024, month := 1, day := 5 } (some "Friday") none "A" (some 3)]

/-- A one-row table whose weekday cell is not one of the seven day names. -/
def qBadDow : List DRow :=
  [mkRow { year := 2024, month := 1, day := 5 } (some "Xday") none "A" (some 3)]

/-- A shared time-bucket key for aggregated-table fixtures. -/
def kJan : TimeKeyVal := TimeKeyVal.month { year := 2024, month := 1, day := 1 }

/-- An aggregated table with four distinct comparison values. -/
def agg4 : List AggRow :=
  [{ key := kJan, comp := some "a", val := some 4 },
   { key := kJan, comp := some "b", val := some 3 },
   { key := kJan, comp := some "c", val := some 2 },
   { key := kJan, comp := some "d", val := some 1 }]

/-- An aggregated table with five distinct comparison values. -/
def agg5 : List AggRow :=
  agg4 ++ [{ key := kJan, comp := some "e", val := some 5 }]

/-- C7: filtering with every column selection empty and both date-range
bounds absent returns the table unchanged, hence aggregating the filtered
table gives exactly the unfiltered grouped sums. -/
theorem empty_filter_identity (df : List DRow) (fs : List (DCol × List String))
    (dr : Option (Option Date × Option Date)) (ts : String) (cb : Option DCol)
    (m : MetricCol)
    (hfs : ∀ p ∈ fs, p.2 = [])
    (hdr : dr = none ∨ dr = some (none, none)) :
    filter_df df fs dr = df ∧
    aggregate (filter_df df fs dr) ts cb m = aggregate df ts cb m := by
  have hid : filter_df df fs dr = df := by
    unfold filter_df
    rcases hdr with h | h
    · rw [h]
      exact filter_foldl_id df fs hfs
    · rw [h]
      exact filter_foldl_id df fs hfs
  exact ⟨hid, by rw [hid]⟩

/-- C7 witness: on a concrete one-row table with the dashboard's five filter
columns all unselected and an absent date range, the filter is the identity
and the aggregation agrees with the unfiltered one. -/
theorem empty_filter_identity_witness :
    (∀ p ∈ ([(DCol.profitCenterName, []), (DCol.productClass, []),
        (DCol.revenueCategory, []), (DCol.itemGroup, []),
        (DCol.itemName, [])] : List (DCol × List String)), p.2 = []) ∧
    filter_df qGood
      [(DCol.profitCenterName, []), (DCol.productClass, []),
       (DCol.revenueCategory, []), (DCol.itemGroup, []), (DCol.itemName, [])]
      (some (none, none)) = qGood :=
  ⟨by decide,
   (empty_filter_identity qGood
      [(DCol.profitCenterName, []), (DCol.productClass, []),
       (DCol.revenueCategory, []), (DCol.itemGroup, []), (DCol.itemName, [])]
      (some (none, none)) "Month" none MetricCol.netRevenue (by decide)
      (Or.inr rfl)).1⟩

/-- C5: the aggregator's sums have min_count=1 semantics — a group all of
whose contributing metric values are null gets a null (absent) sum, never
0 — and aggregation over an empty selection is not an error: it returns an
empty table, also when the empty table comes from a filter selection that
matched no rows. -/
theorem aggregate_null_and_empty (q : List DRow) (ts : String) (cb : Option DCol)
    (m : MetricCol) :
    (∀ g ∈ (aggregate q ts cb m).1,
      (∀ r ∈ groupRows q ts cb (g.key, g.comp), metricOf m r = none) →
      g.val = none) ∧
    (aggregate ([] : List DRow) ts cb m).1 = [] ∧
    (∀ df fs dr, filter_df df fs dr = [] →
      (aggregate (filter_df df fs dr) ts cb m).1 = []) := by
  refine ⟨?_, aggregate_nil_fst ts cb m, ?_⟩
  · intro g hg hnull
    unfold aggregate at hg
    obtain ⟨kc, hkc, hgeq⟩ := List.mem_map.mp hg
    subst hgeq
    apply sumMin1_eq_none
    intro v hv
    obtain ⟨r, hr, hveq⟩ := List.mem_map.mp hv
    subst hveq
    exact hnull r hr
  · intro df fs dr h
    rw [h]
    exact aggregate_nil_fst ts cb m

/-- C5 witness: a concrete one-row table whose only metric value is null;
the single `Month` group satisfies the all-null hypothesis and its sum is
absent. -/
theorem aggregate_null_and_empty_witness :
    aggNullRow ∈ (aggregate q0 "Month" none MetricCol.netRevenue).1 ∧
    aggNullRow.val = none :=
  ⟨by decide,
   (aggregate_null_and_empty q0 "Month" none MetricCol.netRevenue).1 aggNullRow
     (by decide) (by decide)⟩

/-- C8 counterexample: `aggregate` with the `Day of Week` slice reassigns
the `DayOfWeek` column of the table passed to it (pmix_dashboard.py:76); on
a table whose weekday cell is not one of the seven category values the
column's value changes to null, so the passed table is not left
unchanged. -/
theorem aggregate_mutates_counterexample :
    (aggregate qBadDow "Day of Week" none MetricCol.netRevenue).2 ≠ qBadDow := by
  decide

/-- C8 (amended): `filter_df` copies its input and mutates nothing, and
`aggregate` leaves the table passed to it unchanged for the `Month`,
`Week` and `Ski Season` slices; the one exception is the `Day of Week`
slice, which reassigns the `DayOfWeek` column in place to its
ordered-categorical coercion — value-preserving exactly when every weekday
cell is one of the seven day names, as `load_data` guarantees. Every row of
a filtered result is a row of the input, unmodified. -/
theorem ops_effect_on_input (q : List DRow) (ts : String) (cb : Option DCol)
    (m : MetricCol) :
    (∀ fs dr r, r ∈ filter_df q fs dr → r ∈ q) ∧
    ((aggregate q "Day of Week" cb m).2 = q.map coerceDowRow) ∧
    (ts ≠ "Day of Week" → (aggregate q ts cb m).2 = q) ∧
    ((∀ r ∈ q, ∀ s, r.dayOfWeek = some s → s ∈ orderedDays) →
      (aggregate q ts cb m).2 = q) := by
  refine ⟨fun fs dr r hr => mem_filter_df q fs dr r hr, ?_, fun h => ?_,
    fun hvalid => ?_⟩
  · rw [aggregate_effect]
    simp
  · rw [aggregate_effect, if_neg h]
  · rw [aggregate_effect]
    by_cases hts : ts = "Day of Week"
    · rw [if_pos hts]
      exact map_coerceDowRow_id q hvalid
    · rw [if_neg hts]

/-- C8 witness: a concrete one-row table with a well-formed weekday: the
non-`Day of Week` slice and the valid-weekday hypotheses are discharged and
the table is unchanged in both cases. -/
theorem ops_effect_on_input_witness :
    ("Month" ≠ "Day of Week" ∧
      (aggregate qGood "Month" none MetricCol.netRevenue).2 = qGood) ∧
    ((∀ r ∈ qGood, ∀ s, r.dayOfWeek = some s → s ∈ orderedDays) ∧
      (aggregate qGood "Day of Week" none MetricCol.netRevenue).2 = qGood) ∧
    (mkRow { year := 2024, month := 1, day := 5 } (some "Friday") none "A"
        (some 3) ∈ qGood) :=
  ⟨⟨by decide,
    (ops_effect_on_input qGood "Month" none MetricCol.netRevenue).2.2.1
      (by decide)⟩,
   ⟨by decide,
    (ops_effect_on_input qGood "Day of Week" none MetricCol.netRevenue).2.2.2
      (by decide)⟩,
   (ops_effect_on_input qGood "Month" none MetricCol.netRevenue).1 [] none
     (mkRow { year := 2024, month := 1, day := 5 } (some "Friday") none "A"
       (some 3)) (by decide)⟩

/-- C4 counterexample: with 4 distinct comparison values and N=3 the
"aggregated view" that the dashboard exports (`view` from `make_fig`,
exported at pmix_dashboard.py:170) loses a row — the Top-N ranking does
alter the exported aggregated view when distinct values exceed N. -/
theorem topn_alters_export_counterexample :
    make_fig_view agg4 (some DCol.itemName) 3 ≠ agg4 := by decide

/-- C4 (amended): the Top-N ranking never touches the aggregator's output
table itself (`make_fig` filters a copy), but the exported "aggregated
view" is the rank-filtered copy; it equals the full aggregated table
exactly in the within-limit case — whenever the comparison dimension has at
most N distinct values (so 5 values with N=20 pass through unfiltered), and
always when no comparison dimension is selected. -/
theorem topn_view_within_limit (agg : List AggRow) (c : DCol) (n : Nat)
    (h : (agg.map AggRow.comp).dedup.length ≤ n) :
    make_fig_view agg (some c) n = agg ∧ make_fig_view agg none n = agg := by
  constructor
  · simp only [make_fig_view]
    apply List.filter_eq_self.mpr
    intro r hr
    apply decide_eq_true
    have hkeys : r.comp ∈ sortByLe (optLe strLe) (agg.map AggRow.comp).dedup := by
      rw [mem_sortByLe, List.mem_dedup]
      exact List.mem_map_of_mem AggRow.comp hr
    have htot : (r.comp,
        sumSkipNA ((agg.filter fun x => decide (x.comp = r.comp)).map AggRow.val)) ∈
        totalsFor agg := by
      unfold totalsFor
      exact List.mem_map_of_mem _ hkeys
    have hlen : (sortByLe (fun a b => decide (b.2 ≤ a.2)) (totalsFor agg)).length ≤ n := by
      rw [length_sortByLe]
      unfold totalsFor
      rw [List.length_map, length_sortByLe]
      exact h
    rw [List.take_of_length_le hlen]
    refine List.mem_map.mpr ⟨(r.comp,
      sumSkipNA ((agg.filter fun x => decide (x.comp = r.comp)).map AggRow.val)),
      ?_, rfl⟩
    rw [mem_sortByLe]
    exact htot
  · rfl

/-- C4 witness: 5 distinct comparison values with N=20: the within-limit
hypothesis holds and the exported view is the aggregated table,
unfiltered. -/
theorem topn_view_within_limit_witness :
    (agg5.map AggRow.comp).dedup.length ≤ 20 ∧
    make_fig_view agg5 (some DCol.itemName) 20 = agg5 :=
  ⟨by decide, (topn_view_within_limit agg5 DCol.itemName 20 (by decide)).1⟩

end PmixAnalysis
